import Mathlib

/-!
Verification of the sqlite3-cache entry store (src/sqlite3_cache/cache.py).

The cache is one SQL relation, CREATE TABLE cache (key TEXT PRIMARY KEY,
value BLOB, exp FLOAT).  We model it as an association list from keys to
entries.  The float Unix timestamps the code stores come from Python
datetime values, whose resolution is one microsecond and whose magnitudes
are far below the precision limit of a double, so timestamps are modelled
exactly as integer microsecond counts; whole seconds are the unit of the
timeout arguments and of the ttl results, scaled by the usec constant.
The current wall-clock time is passed to every operation as an explicit
parameter, matching the code's calls to datetime.datetime.now.

Two liveness tests occur in the source and are modelled separately:
- the Python-side test (used by get, get_or_set, get_many, ttl, ttl_many)
  compares exact timestamps: an entry is dead iff exp is not the -1.0
  sentinel and now >= exp;
- the SQL-side test (used by the add upsert condition, by update, touch and
  by the incr/decr liveness check) compares
  DATETIME(exp, 'unixepoch') <= DATETIME('now').  DATETIME renders whole
  seconds, so this comparison truncates both timestamps to whole seconds,
  modelled by flooring division of the microsecond counts by usec.

The pickle codec is external to the repository; per the spec it is an
opaque encode/decode pair with decode after encode the identity, modelled
by an injective wrapper type.
-/

deriving instance DecidableEq for Except

namespace Cache

/-- One second in the microsecond time scale. -/
def usec : ℤ := 1000000

/-- The -1.0 seconds sentinel timestamp meaning "never expires". -/
def noExpiry : ℤ := -usec

/-- A Python value that can be stored in the cache (the universe is kept to
the shapes the claims exercise: integers, strings and None). -/
inductive PyVal where
  | vint (n : ℤ)
  | vstr (s : String)
  | vnone
deriving DecidableEq, Repr

/-- Output of the external pickle codec for one value: an opaque blob.
The codec is outside the repository; the spec requires only that decode
inverts encode, which the wrapper satisfies. -/
structure Blob where
  val : PyVal
deriving DecidableEq, Repr

/-- Cache._stream: encode a value with the codec. -/
def stream (v : PyVal) : Blob := ⟨v⟩

/-- Cache._unstream: decode a blob with the codec. -/
def unstream (b : Blob) : PyVal := b.val

/-- One row of the cache relation: the encoded value and the expiry
timestamp in microseconds. -/
structure Entry where
  value : Blob
  exp : ℤ
deriving DecidableEq, Repr

abbrev Key := String

/-- The cache relation: rows of key and entry.  The PRIMARY KEY constraint
makes key columns unique in every reachable state; WF states it. -/
abbrev CacheState := List (Key × Entry)

/-- The PRIMARY KEY / unique index constraint on the relation. -/
def WF (st : CacheState) : Prop := (st.map Prod.fst).Nodup

/-- SELECT ... WHERE key = :key on the relation (first row with the key). -/
def assoc {α : Type} : List (Key × α) → Key → Option α
  | [], _ => none
  | (k', a) :: rest, k => if k' = k then some a else assoc rest k

/-- Membership of a key in a key list, as the SQL IN operator sees it. -/
def inList (k : Key) (keys : List Key) : Bool := decide (k ∈ keys)

/-- DELETE FROM cache WHERE key = :key. -/
def eraseKey (k : Key) (st : CacheState) : CacheState :=
  st.filter fun p => decide (p.1 ≠ k)

/-- INSERT ... ON CONFLICT(key) DO UPDATE with no condition: the row for
the key afterwards holds exactly the given entry. -/
def upsert (k : Key) (e : Entry) (st : CacheState) : CacheState :=
  (k, e) :: eraseKey k st

/-- Cache._exp_timestamp: a negative timeout stores the -1.0 no-expiry
sentinel, otherwise the expiry is now plus the timeout in seconds. -/
def exp_timestamp (timeout : ℤ) (now : ℤ) : ℤ :=
  if timeout < 0 then noExpiry else now + timeout * usec

/-- The Python-side dead test used by get, get_or_set, get_many, ttl_many:
Cache._exp_datetime yields None exactly for the -1.0 sentinel, and
otherwise the entry is dead iff datetime.now() >= exp. -/
def pyDeadB (exp now : ℤ) : Bool := decide (exp ≠ noExpiry) && decide (exp ≤ now)

/-- The SQL-side liveness test exp = -1.0 OR DATETIME(exp, 'unixepoch') >
DATETIME('now'): DATETIME renders whole seconds, so the comparison is
between the timestamps floored to whole seconds. -/
def sqlLiveB (exp now : ℤ) : Bool :=
  decide (exp = noExpiry) || decide (now.fdiv usec < exp.fdiv usec)

/-- Cache.set: unconditional upsert of the encoded value and new expiry. -/
def set (st : CacheState) (k : Key) (v : PyVal) (timeout : ℤ) (now : ℤ) : CacheState :=
  upsert k ⟨stream v, exp_timestamp timeout now⟩ st

/-- Cache.add: the upsert whose conflict branch only fires when the
existing row is dead by the SQL-side test (exp <> -1.0 AND
DATETIME(exp, 'unixepoch') <= DATETIME('now')). -/
def add (st : CacheState) (k : Key) (v : PyVal) (timeout : ℤ) (now : ℤ) : CacheState :=
  match assoc st k with
  | none => upsert k ⟨stream v, exp_timestamp timeout now⟩ st
  | some e =>
    if sqlLiveB e.exp now then st
    else upsert k ⟨stream v, exp_timestamp timeout now⟩ st

/-- Cache.get: fetch the row; absent gives the default; a dead row (exact
Python-side test) is deleted and gives the default; a live row decodes. -/
def get (st : CacheState) (k : Key) (default : PyVal) (now : ℤ) : PyVal × CacheState :=
  match assoc st k with
  | none => (default, st)
  | some e =>
    if pyDeadB e.exp now then (default, eraseKey k st)
    else (unstream e.value, st)

/-- Cache.update: UPDATE cache SET value = :value WHERE key = :key AND the
SQL-side liveness test holds; keys and expiries are untouched. -/
def update (st : CacheState) (k : Key) (v : PyVal) (now : ℤ) : CacheState :=
  st.map fun p =>
    (p.1, if p.1 = k ∧ sqlLiveB p.2.exp now then ⟨stream v, p.2.exp⟩ else p.2)

/-- Cache.touch with the expiry parameter already computed: UPDATE cache
SET exp = :exp WHERE key = :key AND the SQL-side liveness test holds. -/
def touchE (st : CacheState) (k : Key) (exp : ℤ) (now : ℤ) : CacheState :=
  st.map fun p =>
    (p.1, if p.1 = k ∧ sqlLiveB p.2.exp now then ⟨p.2.value, exp⟩ else p.2)

/-- Cache.touch. -/
def touch (st : CacheState) (k : Key) (timeout : ℤ) (now : ℤ) : CacheState :=
  touchE st k (exp_timestamp timeout now) now

/-- Cache.delete. -/
def delete (st : CacheState) (k : Key) : CacheState := eraseKey k st

/-- Cache._check_sql: SELECT the row only when the SQL-side liveness test
holds (used by incr, decr and the membership operator). -/
def check (st : CacheState) (k : Key) (now : ℤ) : Option Entry :=
  match assoc st k with
  | none => none
  | some e => if sqlLiveB e.exp now then some e else none

/-- Cache.incr: fetch through the liveness-checked select, fail on a
missing or dead row or a non-integer value, otherwise write the sum back
through the conditional update and return it. -/
def incr (st : CacheState) (k : Key) (delta : ℤ) (now : ℤ) :
    Except String (ℤ × CacheState) :=
  match check st k now with
  | none => .error "Nonexistent or expired cache key."
  | some e =>
    match unstream e.value with
    | .vint n => .ok (n + delta, update st k (.vint (n + delta)) now)
    | _ => .error "Value is not a number."

/-- Cache.decr: as incr with subtraction. -/
def decr (st : CacheState) (k : Key) (delta : ℤ) (now : ℤ) :
    Except String (ℤ × CacheState) :=
  match check st k now with
  | none => .error "Nonexistent or expired cache key."
  | some e =>
    match unstream e.value with
    | .vint n => .ok (n - delta, update st k (.vint (n - delta)) now)
    | _ => .error "Value is not a number."

/-- Cache.get_or_set: fetch the row; a live row (exact Python-side test)
returns its decoded value and changes nothing; otherwise any dead row is
deleted and the default is stored unconditionally and returned. -/
def get_or_set (st : CacheState) (k : Key) (default : PyVal) (timeout : ℤ) (now : ℤ) :
    PyVal × CacheState :=
  match assoc st k with
  | some e =>
    if pyDeadB e.exp now then (default, set (eraseKey k st) k default timeout now)
    else (unstream e.value, st)
  | none => (default, set st k default timeout now)

/-- Cache.ttl: -2 when the row is absent; -1 for the no-expiry sentinel;
otherwise int() applied to the remaining seconds, which truncates toward
zero; a result of at most zero deletes the row and yields -2. -/
def ttl (st : CacheState) (k : Key) (now : ℤ) : ℤ × CacheState :=
  match assoc st k with
  | none => (-2, st)
  | some e =>
    if e.exp = noExpiry then (-1, st)
    else
      let t := (e.exp - now).tdiv usec
      if t ≤ 0 then (-2, eraseKey k st) else (t, st)

/-- One row of the multi-row add statement: the per-row conflict branch of
Cache._add_many_sql, identical in condition to the singular add. -/
def addRow (st : CacheState) (k : Key) (v : PyVal) (exp : ℤ) (now : ℤ) : CacheState :=
  match assoc st k with
  | none => upsert k ⟨stream v, exp⟩ st
  | some e => if sqlLiveB e.exp now then st else upsert k ⟨stream v, exp⟩ st

/-- Cache.add_many: one INSERT listing every pair with a shared expiry.
With an empty mapping the generated statement has an empty VALUES list
("INSERT INTO cache (key, value, exp) VALUES ON CONFLICT ..."), which is a
SQLite syntax error: sqlite3 raises OperationalError, modelled as the
error branch. -/
def add_many (st : CacheState) (kvs : List (Key × PyVal)) (timeout : ℤ) (now : ℤ) :
    Except Unit CacheState :=
  match kvs with
  | [] => .error ()
  | _ =>
    .ok (kvs.foldl (fun s p => addRow s p.1 p.2 (exp_timestamp timeout now) now) st)

/-- Cache.set_many: one INSERT listing every pair with a shared expiry and
an unconditional conflict branch.  An empty mapping yields the same
malformed empty VALUES list as add_many, raising OperationalError. -/
def set_many (st : CacheState) (kvs : List (Key × PyVal)) (timeout : ℤ) (now : ℤ) :
    Except Unit CacheState :=
  match kvs with
  | [] => .error ()
  | _ =>
    .ok (kvs.foldl (fun s p => upsert p.1 ⟨stream p.2, exp_timestamp timeout now⟩ s) st)

/-- The single quote character the batch SQL interpolation wraps keys in. -/
def squote : Char := Char.ofNat 39

/-- The interpolated IN-list fragment ", ".join over f-string "'{value}'":
each key is spliced verbatim between two single quotes, with no escaping,
exactly as the source builds it for get_many, delete_many and ttl_many. -/
def renderIn : List Key → List Char
  | [] => []
  | [k] => squote :: (k.data ++ [squote])
  | k :: k2 :: rest => squote :: (k.data ++ [squote]) ++ ',' :: ' ' :: renderIn (k2 :: rest)

/-- The SQL lexer's whitespace skipping (spaces are the only whitespace the
built fragments contain). -/
def skipSpaces : List Char → List Char
  | [] => []
  | c :: cs => if c = ' ' then skipSpaces cs else c :: cs

/-- Lex one SQL string literal body after its opening quote: a doubled
quote stands for one quote character; returns the content and the rest
after the closing quote, or none when the literal never closes. -/
def parseLit : List Char → Option (List Char × List Char)
  | [] => none
  | c :: cs =>
    if c = squote then
      match cs with
      | [] => some ([], [])
      | c2 :: cs2 =>
        if c2 = squote then (parseLit cs2).map fun pr => (squote :: pr.1, pr.2)
        else some ([], c2 :: cs2)
    else (parseLit cs).map fun pr => (c :: pr.1, pr.2)

/-- Lex a nonempty comma-separated list of SQL string literals, as the
engine reads the interpolated fragment back; fuel bounds the recursion and
any input is covered by fuel = length + 1. -/
def parseList : Nat → List Char → Option (List String)
  | 0, _ => none
  | fuel + 1, s =>
    match skipSpaces s with
    | [] => none
    | c :: cs =>
      if c = squote then
        match parseLit cs with
        | none => none
        | some (body, rest) =>
          match skipSpaces rest with
          | [] => some [String.mk body]
          | c2 :: cs2 =>
            if c2 = ',' then (parseList fuel cs2).map fun l => String.mk body :: l
            else none
      else none

/-- What the engine makes of the interpolated IN list: none models the
OperationalError of a malformed fragment (an unterminated or misplaced
quote), otherwise the string values the IN operator compares keys against.
The empty list is legal SQLite and matches nothing. -/
def parseInList (s : List Char) : Option (List String) :=
  match skipSpaces s with
  | [] => some []
  | _ :: _ => parseList (s.length + 1) s

/-- Cache.get_many: the keys are spliced verbatim into the IN list of one
SELECT, so the engine re-lexes them: a malformed fragment raises
OperationalError; otherwise the rows whose key is among the re-lexed
strings are fetched, the live ones (exact Python-side test) are decoded
into the result mapping, and the dead ones are deleted through a second
spliced statement built the same way (skipped when there is nothing to
delete). -/
def get_many (st : CacheState) (keys : List Key) (now : ℤ) :
    Except Unit (List (Key × PyVal) × CacheState) :=
  match parseInList (renderIn keys) with
  | none => .error ()
  | some sel =>
    let fetched := st.filter fun p => inList p.1 sel
    let results := (fetched.filter fun p => !pyDeadB p.2.exp now).map
      fun p => (p.1, unstream p.2.value)
    let toDelete := (fetched.filter fun p => pyDeadB p.2.exp now).map Prod.fst
    match toDelete with
    | [] => .ok (results, st)
    | _ :: _ =>
      match parseInList (renderIn toDelete) with
      | none => .error ()
      | some sel2 => .ok (results, st.filter fun p => !inList p.1 sel2)

/-- Cache.delete_many: DELETE FROM cache WHERE key IN (...) with the keys
spliced verbatim into the statement text: a malformed fragment raises
OperationalError, and otherwise the rows removed are those whose key is
among the re-lexed strings, which differ from the listed keys when a key
contains a single quote. -/
def delete_many (st : CacheState) (keys : List Key) : Except Unit CacheState :=
  match parseInList (renderIn keys) with
  | none => .error ()
  | some sel => .ok (st.filter fun p => !inList p.1 sel)

/-- Cache.update_many: executemany of the singular conditional update. -/
def update_many (st : CacheState) (kvs : List (Key × PyVal)) (now : ℤ) : CacheState :=
  kvs.foldl (fun s p => update s p.1 p.2 now) st

/-- Cache.touch_many: the expiry is computed once, then executemany of the
singular conditional touch. -/
def touch_many (st : CacheState) (keys : List Key) (timeout : ℤ) (now : ℤ) : CacheState :=
  keys.foldl (fun s k => touchE s k (exp_timestamp timeout now) now) st

/-- Cache.ttl_many: the keys are spliced verbatim into the IN list of the
fetch (malformed fragments raise OperationalError), then the original key
list is walked: absent gives -2, the sentinel gives -1, a dead row (exact
test) is marked for deletion and gives -2, a live row gives int() of the
remaining seconds; the marked rows are deleted through a second spliced
statement (skipped when nothing is marked). -/
def ttl_many (st : CacheState) (keys : List Key) (now : ℤ) :
    Except Unit (List (Key × ℤ) × CacheState) :=
  match parseInList (renderIn keys) with
  | none => .error ()
  | some sel =>
    let fetched := st.filter fun p => inList p.1 sel
    let results := keys.map fun k =>
      (k, match assoc fetched k with
          | none => (-2 : ℤ)
          | some e =>
            if e.exp = noExpiry then -1
            else if e.exp ≤ now then -2
            else (e.exp - now).tdiv usec)
    let toDelete := keys.filter fun k =>
      match assoc fetched k with
      | none => false
      | some e => decide (e.exp ≠ noExpiry) && decide (e.exp ≤ now)
    match toDelete with
    | [] => .ok (results, st)
    | _ :: _ =>
      match parseInList (renderIn toDelete) with
      | none => .error ()
      | some sel2 => .ok (results, st.filter fun p => !inList p.1 sel2)

/-- Cache.__getitem__: call get with the None default and raise KeyError
when the returned value is None. -/
def getitem (st : CacheState) (k : Key) (now : ℤ) : Except Unit PyVal × CacheState :=
  let r := get st k .vnone now
  (if r.1 = .vnone then .error () else .ok r.1, r.2)

/-- ASCII-only case folding, the folding the SQLite LIKE operator applies. -/
def foldAscii (c : Char) : Char :=
  if 'A' ≤ c ∧ c ≤ 'Z' then Char.ofNat (c.toNat + 32) else c

/-- The SQLite LIKE operator on character lists: percent matches any run of
characters, underscore any single character, and plain characters compare
after ASCII case folding. -/
def likeM : List Char → List Char → Bool
  | [], [] => true
  | [], _ :: _ => false
  | '%' :: ps, [] => likeM ps []
  | '%' :: ps, c :: s => likeM ps (c :: s) || likeM ('%' :: ps) s
  | '_' :: _, [] => false
  | '_' :: ps, _ :: s => likeM ps s
  | _ :: _, [] => false
  | p :: ps, c :: s => decide (foldAscii p = foldAscii c) && likeM ps s
termination_by p s => (s.length, p.length)

/-- key LIKE :pattern. -/
def sqlLike (pattern : String) (s : String) : Bool := likeM pattern.data s.data

/-- Cache.clear_matching_keys: DELETE FROM cache WHERE key LIKE :pattern,
with no select and no liveness test beforehand. -/
def clear_matching_keys (st : CacheState) (pat : String) : CacheState :=
  st.filter fun p => !sqlLike pat p.1

/-- Cache.clear_keys_starting_with: the pattern gets a trailing percent. -/
def clear_keys_starting_with (st : CacheState) (pat : String) : CacheState :=
  clear_matching_keys st (pat ++ "%")

/-- Cache.clear_keys_ending_with: the pattern gets a leading percent. -/
def clear_keys_ending_with (st : CacheState) (pat : String) : CacheState :=
  clear_matching_keys st ("%" ++ pat)

/-- Cache.clear_keys_containing: the pattern gets percents on both sides. -/
def clear_keys_containing (st : CacheState) (pat : String) : CacheState :=
  clear_matching_keys st ("%" ++ pat ++ "%")

end Cache

namespace Cache

/-! Lemmas about lookup against the relation combinators. -/

theorem usec_pos : (0 : ℤ) < usec := by norm_num [usec]

theorem assoc_filter_key {α : Type} (f : Key → Bool) (st : List (Key × α)) (k : Key) :
    assoc (st.filter fun p => f p.1) k = if f k = true then assoc st k else none := by
  induction st with
  | nil => cases h : f k <;> simp [assoc, h]
  | cons p rest ih =>
    obtain ⟨k2, a⟩ := p
    by_cases hk : k2 = k
    · subst hk
      cases h : f k2 <;> simp [List.filter_cons, h, assoc, ih]
    · cases h : f k2 <;> simp [List.filter_cons, h, assoc, hk, ih]

theorem assoc_map_entry {β γ : Type} (g : Key → β → γ) (st : List (Key × β)) (k : Key) :
    assoc (st.map fun p => (p.1, g p.1 p.2)) k = (assoc st k).map (g k) := by
  induction st with
  | nil => simp [assoc]
  | cons p rest ih =>
    obtain ⟨k2, a⟩ := p
    by_cases hk : k2 = k
    · subst hk; simp [assoc, ih]
    · simp [assoc, hk, ih]

theorem assoc_eraseKey (k k2 : Key) (st : CacheState) :
    assoc (eraseKey k st) k2 = if k2 = k then none else assoc st k2 := by
  induction st with
  | nil => by_cases hk : k2 = k <;> simp [eraseKey, assoc, hk]
  | cons p rest ih =>
    obtain ⟨k3, a⟩ := p
    by_cases h3 : k3 = k <;> by_cases hk : k2 = k <;>
      by_cases h32 : k3 = k2 <;>
      simp_all [eraseKey, List.filter_cons, assoc]

theorem assoc_upsert (k k2 : Key) (e : Entry) (st : CacheState) :
    assoc (upsert k e st) k2 = if k2 = k then some e else assoc st k2 := by
  by_cases hk : k2 = k
  · subst hk; simp [upsert, assoc]
  · have : ¬k = k2 := fun h => hk h.symm
    simp [upsert, assoc, this, assoc_eraseKey, hk]

theorem assoc_eq_none_of_not_mem {β : Type} {st : List (Key × β)} {k : Key}
    (h : k ∉ st.map Prod.fst) : assoc st k = none := by
  induction st with
  | nil => rfl
  | cons p rest ih =>
    simp only [List.map_cons, List.mem_cons] at h
    push_neg at h
    have : ¬p.1 = k := fun hh => h.1 hh.symm
    obtain ⟨k2, a⟩ := p
    simpa [assoc, this] using ih h.2

theorem assoc_some_mem {β : Type} {st : List (Key × β)} {k : Key} {e : β}
    (h : assoc st k = some e) : (k, e) ∈ st := by
  induction st with
  | nil => simp [assoc] at h
  | cons p rest ih =>
    obtain ⟨k2, a⟩ := p
    by_cases hk : k2 = k
    · subst hk
      simp [assoc] at h
      simp [h]
    · simp [assoc, hk] at h
      simp [ih h]

theorem assoc_of_mem_of_nodup {β : Type} {st : List (Key × β)} {k : Key} {e : β}
    (hnd : (st.map Prod.fst).Nodup) (h : (k, e) ∈ st) : assoc st k = some e := by
  induction st with
  | nil => simp at h
  | cons p rest ih =>
    obtain ⟨k2, a⟩ := p
    simp only [List.map_cons, List.nodup_cons] at hnd
    rcases List.mem_cons.mp h with h1 | h1
    · have hk : k2 = k := (congrArg Prod.fst h1).symm
      have ha : a = e := (congrArg Prod.snd h1).symm
      subst hk; subst ha
      simp [assoc]
    · by_cases hk : k2 = k
      · subst hk
        exact absurd (List.mem_map.mpr ⟨(k2, e), h1, rfl⟩) hnd.1
      · simpa [assoc, hk] using ih hnd.2 h1

theorem nodup_keys_filter {β : Type} (q : Key × β → Bool) {st : List (Key × β)}
    (hnd : (st.map Prod.fst).Nodup) : ((st.filter q).map Prod.fst).Nodup :=
  List.Nodup.sublist (List.Sublist.map Prod.fst (List.filter_sublist st)) hnd

theorem assoc_filter_of_nodup {β : Type} (q : Key × β → Bool) (st : List (Key × β))
    (k : Key) (hnd : (st.map Prod.fst).Nodup) :
    assoc (st.filter q) k
      = (assoc st k).bind fun e => if q (k, e) = true then some e else none := by
  induction st with
  | nil => simp [assoc]
  | cons p rest ih =>
    obtain ⟨k2, a⟩ := p
    simp only [List.map_cons, List.nodup_cons] at hnd
    by_cases hk : k2 = k
    · subst hk
      cases hq : q (k2, a)
      · have hout : k2 ∉ (rest.filter q).map Prod.fst := fun hmem =>
          hnd.1 ((List.Sublist.map Prod.fst (List.filter_sublist rest)).subset hmem)
        simp [List.filter_cons, hq, assoc, assoc_eq_none_of_not_mem hout]
      · simp [List.filter_cons, hq, assoc]
    · cases hq : q (k2, a) <;>
        simp [List.filter_cons, hq, assoc, hk, ih hnd.2]

/-! Bridge between the two liveness tests: strict inequality of the
second-truncated timestamps implies strict inequality of the exact ones,
so an entry live for the SQL-side test is live for the Python-side one. -/

theorem not_pyDead_of_sqlLive {e now : ℤ} (h : sqlLiveB e now = true) :
    pyDeadB e now = false := by
  simp only [sqlLiveB, Bool.or_eq_true, decide_eq_true_eq] at h
  rcases h with h | h
  · simp [pyDeadB, h]
  · have hlt : now < e := by
      by_contra hle
      push_neg at hle
      have hmono := Int.ediv_le_ediv usec_pos hle
      rw [← Int.fdiv_eq_ediv _ (le_of_lt usec_pos), ← Int.fdiv_eq_ediv _ (le_of_lt usec_pos)] at hmono
      omega
    have h2 : decide (e ≤ now) = false := decide_eq_false (by omega)
    simp [pyDeadB, h2]

end Cache

/-- C1: for every key, value and positive timeout, immediately after set
the operation get returns the stored value (round trip through the codec)
and the operation ttl returns a remaining time n with 0 < n and n at most
the timeout.  The hypothesis 0 <= now says the wall clock is a Unix
timestamp at or after the epoch. -/
theorem claim1_set_get_ttl (st : Cache.CacheState) (k : Cache.Key) (v : Cache.PyVal)
    (t now : ℤ) (d : Cache.PyVal) (ht : 0 < t) (hnow : 0 ≤ now) :
    (Cache.get (Cache.set st k v t now) k d now).1 = v ∧
    0 < (Cache.ttl (Cache.set st k v t now) k now).1 ∧
    (Cache.ttl (Cache.set st k v t now) k now).1 ≤ t := by
  have hu := Cache.usec_pos
  have htu : 0 < t * Cache.usec := mul_pos ht hu
  have hexp : Cache.exp_timestamp t now = now + t * Cache.usec := by
    simp [Cache.exp_timestamp, not_lt.mpr (le_of_lt ht)]
  have ha : Cache.assoc (Cache.set st k v t now) k
      = some ⟨Cache.stream v, now + t * Cache.usec⟩ := by
    simp [Cache.set, Cache.assoc_upsert, hexp]
  have hdead : Cache.pyDeadB (now + t * Cache.usec) now = false := by
    simp only [Cache.pyDeadB, Bool.and_eq_false_iff, decide_eq_false_iff_not, not_le, not_not]
    right
    omega
  refine ⟨by simp [Cache.get, ha, hdead, Cache.unstream, Cache.stream], ?_⟩
  have hne : now + t * Cache.usec ≠ Cache.noExpiry := by
    simp only [Cache.noExpiry, Cache.usec] at htu ⊢
    omega
  have htdiv : (t * Cache.usec).tdiv Cache.usec = t :=
    Int.mul_tdiv_cancel _ (by simp [Cache.usec])
  have hts : ¬(t ≤ 0) := by omega
  have httl : Cache.ttl (Cache.set st k v t now) k now = (t, Cache.set st k v t now) := by
    simp [Cache.ttl, ha, hne, htdiv, hts]
  rw [httl]
  exact ⟨ht, le_refl t⟩

/-- C1 witness: a concrete instance of claim1_set_get_ttl. -/
theorem claim1_witness :
    (Cache.get (Cache.set [] "a" (.vint 3) 5 0) "a" .vnone 0).1 = .vint 3 ∧
    0 < (Cache.ttl (Cache.set [] "a" (.vint 3) 5 0) "a" 0).1 ∧
    (Cache.ttl (Cache.set [] "a" (.vint 3) 5 0) "a" 0).1 ≤ 5 :=
  claim1_set_get_ttl [] "a" (.vint 3) 5 0 .vnone (by decide) (by decide)

namespace Cache

/-! Arithmetic facts about the truncating division the ttl computation
performs on the remaining microseconds. -/

theorem tdiv_usec_nonpos_iff {d : ℤ} : d.tdiv usec ≤ 0 ↔ d < usec := by
  constructor
  · intro h
    by_contra hlt
    push_neg at hlt
    have h0 : 0 ≤ d := le_trans (le_of_lt usec_pos) hlt
    rw [Int.tdiv_eq_ediv h0 (le_of_lt usec_pos)] at h
    have h1 : 1 ≤ d / usec := (Int.le_ediv_iff_mul_le usec_pos).mpr (by omega)
    omega
  · intro h
    rcases le_or_lt 0 d with h0 | h0
    · rw [Int.tdiv_eq_ediv h0 (le_of_lt usec_pos), Int.ediv_eq_zero_of_lt h0 h]
    · have hneg : d.tdiv usec = -((-d).tdiv usec) := by
        rw [← Int.neg_tdiv, neg_neg]
      rw [hneg]
      have := Int.tdiv_nonneg (by omega : (0:ℤ) ≤ -d) (le_of_lt usec_pos)
      omega

theorem tdiv_usec_eq_fdiv {d : ℤ} (h : usec ≤ d) : d.tdiv usec = d.fdiv usec := by
  have h0 : 0 ≤ d := le_trans (le_of_lt usec_pos) h
  rw [Int.tdiv_eq_ediv h0 (le_of_lt usec_pos), Int.fdiv_eq_ediv _ (le_of_lt usec_pos)]

theorem fdiv_usec_pos {d : ℤ} (h : usec ≤ d) : 0 < d.fdiv usec := by
  rw [Int.fdiv_eq_ediv _ (le_of_lt usec_pos)]
  have h1 : 1 ≤ d / usec := (Int.le_ediv_iff_mul_le usec_pos).mpr (by omega)
  omega

end Cache

/-- C3: ttl returns -1 exactly on the no-expiry sentinel; -2 on an absent
row with no other change; when less than one full second remains (the
int() of the remaining time is at most zero) it returns -2 and evicts the
row, leaving all other keys unchanged; otherwise it returns the remaining
whole seconds rounded down (the floor of the remaining microseconds over
one second) and changes nothing. -/
theorem claim3_ttl_semantics (st : Cache.CacheState) (k : Cache.Key) (now : ℤ) :
    (Cache.assoc st k = none → Cache.ttl st k now = (-2, st)) ∧
    (∀ e, Cache.assoc st k = some e → e.exp = Cache.noExpiry →
      Cache.ttl st k now = (-1, st)) ∧
    (∀ e, Cache.assoc st k = some e → e.exp ≠ Cache.noExpiry →
      e.exp - now < Cache.usec →
      (Cache.ttl st k now).1 = -2 ∧
      Cache.assoc (Cache.ttl st k now).2 k = none ∧
      (∀ k2, k2 ≠ k → Cache.assoc (Cache.ttl st k now).2 k2 = Cache.assoc st k2)) ∧
    (∀ e, Cache.assoc st k = some e → e.exp ≠ Cache.noExpiry →
      Cache.usec ≤ e.exp - now →
      Cache.ttl st k now = ((e.exp - now).fdiv Cache.usec, st) ∧
      0 < (e.exp - now).fdiv Cache.usec) := by
  refine ⟨fun h => by simp [Cache.ttl, h], fun e he hexp => by simp [Cache.ttl, he, hexp], ?_, ?_⟩
  · intro e he hexp hrem
    have hle : (e.exp - now).tdiv Cache.usec ≤ 0 := Cache.tdiv_usec_nonpos_iff.mpr hrem
    have httl : Cache.ttl st k now = (-2, Cache.eraseKey k st) := by
      simp [Cache.ttl, he, hexp, hle]
    rw [httl]
    refine ⟨rfl, by simp [Cache.assoc_eraseKey], fun k2 hk2 => ?_⟩
    simp [Cache.assoc_eraseKey, hk2]
  · intro e he hexp hrem
    have hgt : ¬((e.exp - now).tdiv Cache.usec ≤ 0) := by
      rw [Cache.tdiv_usec_nonpos_iff]
      omega
    have heq := Cache.tdiv_usec_eq_fdiv hrem
    have hgt2 : ¬((e.exp - now).fdiv Cache.usec ≤ 0) := by
      have := Cache.fdiv_usec_pos hrem
      omega
    exact ⟨by simp [Cache.ttl, he, hexp, heq, hgt2], Cache.fdiv_usec_pos hrem⟩

/-- C3 witness: a live entry ten seconds from expiry at time zero. -/
theorem claim3_witness :
    Cache.ttl [("k", ⟨⟨.vint 0⟩, 10000000⟩)] "k" 0
      = ((10000000 - 0 : ℤ).fdiv Cache.usec, [("k", ⟨⟨.vint 0⟩, 10000000⟩)]) ∧
    0 < (10000000 - 0 : ℤ).fdiv Cache.usec :=
  (claim3_ttl_semantics [("k", ⟨⟨.vint 0⟩, 10000000⟩)] "k" 0).2.2.2
    ⟨⟨.vint 0⟩, 10000000⟩ (by decide) (by decide) (by decide)

/-- C2 counterexample: the first add stores the value 1 at wall time 0.5s
with a one second timeout, so the entry expires at 1.5s.  At wall time
1.2s the timeout has not elapsed (1200000 < 1500000 microseconds), yet a
second add overwrites the entry, because the SQL conflict condition
compares the two timestamps truncated to whole seconds (1 <= 1): get then
returns the second value, not the first. -/
theorem claim2_counterexample :
    Cache.assoc (Cache.add ([] : Cache.CacheState) "k" (.vint 1) 1 500000) "k"
        = some ⟨Cache.stream (.vint 1), 1500000⟩ ∧
    (1200000 : ℤ) < 1500000 ∧
    (Cache.get (Cache.add (Cache.add [] "k" (.vint 1) 1 500000) "k" (.vint 2) 1 1200000)
        "k" .vnone 1200000).1 = .vint 2 ∧
    Cache.PyVal.vint 2 ≠ Cache.PyVal.vint 1 := by decide

/-- C2 amended: add is a no-op exactly against an entry that is live at
whole-second granularity: when the stored row has the no-expiry sentinel
or its expiry truncated to whole seconds is strictly above the current
time truncated to whole seconds, a second add changes nothing and get
still returns the first stored value; within the final partial second of
an entry's life the conflict branch fires and add overwrites it. -/
theorem claim2_amended (st : Cache.CacheState) (k : Cache.Key) (e : Cache.Entry)
    (v2 : Cache.PyVal) (t2 now : ℤ) (d : Cache.PyVal)
    (he : Cache.assoc st k = some e) (hlive : Cache.sqlLiveB e.exp now = true) :
    Cache.add st k v2 t2 now = st ∧
    (Cache.get st k d now).1 = Cache.unstream e.value := by
  have hd := Cache.not_pyDead_of_sqlLive hlive
  exact ⟨by simp [Cache.add, he, hlive], by simp [Cache.get, he, hd]⟩

/-- C2 witness: a concrete instance of claim2_amended on a sentinel entry. -/
theorem claim2_witness :
    Cache.add [("k", ⟨Cache.stream (.vint 1), Cache.noExpiry⟩)] "k" (.vint 2) 300 0
      = [("k", ⟨Cache.stream (.vint 1), Cache.noExpiry⟩)] ∧
    (Cache.get [("k", ⟨Cache.stream (.vint 1), Cache.noExpiry⟩)] "k" .vnone 0).1
      = Cache.unstream (Cache.stream (.vint 1)) :=
  claim2_amended [("k", ⟨Cache.stream (.vint 1), Cache.noExpiry⟩)] "k"
    ⟨Cache.stream (.vint 1), Cache.noExpiry⟩ (.vint 2) 300 0 .vnone
    (by decide) (by decide)

/-- C5 counterexample: an entry expiring at 1.5s is live at wall time
1.2s, yet update leaves it unchanged, because the UPDATE statement's
liveness condition compares the timestamps truncated to whole seconds. -/
theorem claim5_counterexample :
    (1200000 : ℤ) < 1500000 ∧
    Cache.update [("k", (⟨Cache.stream (.vint 1), 1500000⟩ : Cache.Entry))] "k"
        (.vint 2) 1200000
      = [("k", ⟨Cache.stream (.vint 1), 1500000⟩)] ∧
    Cache.unstream (Cache.stream (.vint 1)) ≠ .vint 2 := by decide

namespace Cache

/-- The conditional update leaves the relation unchanged when no row both
carries the key and passes the SQL-side liveness test. -/
theorem update_eq_self (st : CacheState) (k : Key) (v : PyVal) (now : ℤ)
    (h : ∀ p, p ∈ st → p.1 = k → sqlLiveB p.2.exp now = false) :
    update st k v now = st := by
  rw [update]
  have hid : ∀ p ∈ st,
      (p.1, if p.1 = k ∧ sqlLiveB p.2.exp now then
        (⟨stream v, p.2.exp⟩ : Entry) else p.2) = p := by
    intro p hp
    obtain ⟨k2, e2⟩ := p
    by_cases hk : k2 = k
    · simp [hk, h (k2, e2) hp hk]
    · simp [hk]
  calc st.map (fun p => (p.1,
          if p.1 = k ∧ sqlLiveB p.2.exp now then
            (⟨stream v, p.2.exp⟩ : Entry) else p.2))
      = st.map id := List.map_congr_left fun p hp => hid p hp
    _ = st := List.map_id st

/-- A key whose lookup is none heads no row of the relation. -/
theorem not_mem_of_assoc_none {β : Type} {st : List (Key × β)} {k : Key}
    (h : assoc st k = none) : ∀ p, p ∈ st → p.1 ≠ k := by
  induction st with
  | nil => intro p hp; simp at hp
  | cons q rest ih =>
    obtain ⟨k2, a⟩ := q
    by_cases hk : k2 = k
    · subst hk; simp [assoc] at h
    · intro p hp
      rcases List.mem_cons.mp hp with h1 | h1
      · rw [h1]; exact hk
      · exact ih (by simpa [assoc, hk] using h) p h1

end Cache

/-- C5 amended: update replaces the value and only the value of the row
for the key when that row is live at whole-second granularity, leaving its
expiry and every other key unchanged; when the row is absent or dead for
that test, update leaves the whole relation unchanged. -/
theorem claim5_amended (st : Cache.CacheState) (k : Cache.Key) (v : Cache.PyVal)
    (now : ℤ) :
    (∀ e, Cache.assoc st k = some e → Cache.sqlLiveB e.exp now = true →
      Cache.assoc (Cache.update st k v now) k = some ⟨Cache.stream v, e.exp⟩) ∧
    (∀ k2, k2 ≠ k → Cache.assoc (Cache.update st k v now) k2 = Cache.assoc st k2) ∧
    (∀ e, Cache.assoc st k = some e → Cache.sqlLiveB e.exp now = false →
      Cache.WF st → Cache.update st k v now = st) ∧
    (Cache.assoc st k = none → Cache.update st k v now = st) := by
  have hmap := Cache.assoc_map_entry
    (fun k0 e0 => if k0 = k ∧ Cache.sqlLiveB e0.exp now then
      (⟨Cache.stream v, e0.exp⟩ : Cache.Entry) else e0) st
  refine ⟨?_, ?_, ?_, ?_⟩
  · intro e he hlive
    rw [Cache.update, hmap k, he]
    simp [hlive]
  · intro k2 hk2
    rw [Cache.update, hmap k2]
    cases Cache.assoc st k2 <;> simp [hk2]
  · intro e he hlive hWF
    refine Cache.update_eq_self st k v now fun p hp hk => ?_
    have hmem : (k, p.2) ∈ st := by
      have : p = (k, p.2) := by rw [← hk]
      rwa [this] at hp
    have := Cache.assoc_of_mem_of_nodup hWF hmem
    rw [he] at this
    rwa [← Option.some.inj this]
  · intro hnone
    refine Cache.update_eq_self st k v now fun p hp hk => ?_
    exact absurd hk (Cache.not_mem_of_assoc_none hnone p hp)

/-- C5 witness: a concrete instance of claim5_amended on a live entry. -/
theorem claim5_witness :
    Cache.assoc (Cache.update [("k", ⟨Cache.stream (.vint 1), Cache.noExpiry⟩)]
        "k" (.vint 2) 0) "k"
      = some ⟨Cache.stream (.vint 2), Cache.noExpiry⟩ :=
  (claim5_amended [("k", ⟨Cache.stream (.vint 1), Cache.noExpiry⟩)] "k" (.vint 2) 0).1
    ⟨Cache.stream (.vint 1), Cache.noExpiry⟩ (by decide) (by decide)

namespace Cache

/-- Lookup after a conditional update that fires: the row keeps its expiry
and carries the re-encoded value. -/
theorem assoc_update_self {st : CacheState} {k : Key} {now : ℤ} {e : Entry}
    (v : PyVal) (he : assoc st k = some e) (hlive : sqlLiveB e.exp now = true) :
    assoc (update st k v now) k = some ⟨stream v, e.exp⟩ := by
  have hmap := assoc_map_entry
    (fun k0 e0 => if k0 = k ∧ sqlLiveB e0.exp now then
      (⟨stream v, e0.exp⟩ : Entry) else e0) st
  rw [update, hmap k, he]
  simp [hlive]

/-- Lookup of any other key is untouched by the conditional update. -/
theorem assoc_update_ne {st : CacheState} {k : Key} {now : ℤ} (v : PyVal)
    {k2 : Key} (hk2 : k2 ≠ k) :
    assoc (update st k v now) k2 = assoc st k2 := by
  have hmap := assoc_map_entry
    (fun k0 e0 => if k0 = k ∧ sqlLiveB e0.exp now then
      (⟨stream v, e0.exp⟩ : Entry) else e0) st
  rw [update, hmap k2]
  cases assoc st k2 <;> simp [hk2]

/-- The liveness-checked select succeeds exactly on a stored row that
passes the SQL-side liveness test. -/
theorem check_eq_some_iff {st : CacheState} {k : Key} {now : ℤ} {e : Entry} :
    check st k now = some e ↔ assoc st k = some e ∧ sqlLiveB e.exp now = true := by
  constructor
  · intro h
    cases hc : assoc st k with
    | none => simp [check, hc] at h
    | some e0 =>
      by_cases hl : sqlLiveB e0.exp now
      · simp [check, hc, hl] at h
        subst h
        exact ⟨rfl, hl⟩
      · simp [check, hc, hl] at h
  · rintro ⟨h1, h2⟩
    simp [check, h1, h2]

/-- The liveness-checked select fails exactly on an absent row or a row
dead for the SQL-side test. -/
theorem check_eq_none_iff {st : CacheState} {k : Key} {now : ℤ} :
    check st k now = none ↔
      assoc st k = none ∨
      ∃ e, assoc st k = some e ∧ sqlLiveB e.exp now = false := by
  cases hc : assoc st k with
  | none => simp [check, hc]
  | some e0 =>
    by_cases hl : sqlLiveB e0.exp now <;> simp [check, hc, hl]

end Cache

/-- C4 counterexample: an entry holding the integer 1 and expiring at wall
time 1.5s is not expired at wall time 1.2s, yet incr fails with the
missing-or-expired error, because the liveness-checked select compares the
timestamps truncated to whole seconds. -/
theorem claim4_counterexample :
    (1200000 : ℤ) < 1500000 ∧
    Cache.unstream (Cache.stream (.vint 1)) = .vint 1 ∧
    Cache.incr [("k", (⟨Cache.stream (.vint 1), 1500000⟩ : Cache.Entry))] "k" 1 1200000
      = .error "Nonexistent or expired cache key." := by decide

/-- C4 amended: incr and decr raise the invalid-operation error exactly
when the liveness-checked select fails, i.e. the key is absent or the row
is dead at whole-second granularity, or when the stored value is not an
integer; otherwise they write the sum (respectively difference) back
through the conditional update, leaving the expiry and all other keys
unchanged, and return it. -/
theorem claim4_amended (st : Cache.CacheState) (k : Cache.Key) (delta now : ℤ) :
    (Cache.check st k now = none →
      Cache.incr st k delta now = .error "Nonexistent or expired cache key." ∧
      Cache.decr st k delta now = .error "Nonexistent or expired cache key.") ∧
    (∀ e, Cache.check st k now = some e →
      (∀ n, Cache.unstream e.value ≠ .vint n) →
      Cache.incr st k delta now = .error "Value is not a number." ∧
      Cache.decr st k delta now = .error "Value is not a number.") ∧
    (∀ e n, Cache.check st k now = some e → Cache.unstream e.value = .vint n →
      Cache.incr st k delta now
          = .ok (n + delta, Cache.update st k (.vint (n + delta)) now) ∧
      Cache.assoc (Cache.update st k (.vint (n + delta)) now) k
          = some ⟨Cache.stream (.vint (n + delta)), e.exp⟩ ∧
      Cache.decr st k delta now
          = .ok (n - delta, Cache.update st k (.vint (n - delta)) now) ∧
      Cache.assoc (Cache.update st k (.vint (n - delta)) now) k
          = some ⟨Cache.stream (.vint (n - delta)), e.exp⟩ ∧
      (∀ k2, k2 ≠ k →
        Cache.assoc (Cache.update st k (.vint (n + delta)) now) k2
          = Cache.assoc st k2)) ∧
    (Cache.check st k now = none ↔
      Cache.assoc st k = none ∨
      ∃ e, Cache.assoc st k = some e ∧ Cache.sqlLiveB e.exp now = false) := by
  refine ⟨?_, ?_, ?_, Cache.check_eq_none_iff⟩
  · intro h
    exact ⟨by simp [Cache.incr, h], by simp [Cache.decr, h]⟩
  · intro e he hnv
    cases hv : Cache.unstream e.value with
    | vint n => exact absurd hv (hnv n)
    | vstr s => exact ⟨by simp [Cache.incr, he, hv], by simp [Cache.decr, he, hv]⟩
    | vnone => exact ⟨by simp [Cache.incr, he, hv], by simp [Cache.decr, he, hv]⟩
  · intro e n he hv
    obtain ⟨ha, hlive⟩ := Cache.check_eq_some_iff.mp he
    exact ⟨by simp [Cache.incr, he, hv],
      Cache.assoc_update_self _ ha hlive,
      by simp [Cache.decr, he, hv],
      Cache.assoc_update_self _ ha hlive,
      fun k2 hk2 => Cache.assoc_update_ne _ hk2⟩

/-- C4 witness: incrementing a live integer entry by one. -/
theorem claim4_witness :
    Cache.incr [("k", ⟨Cache.stream (.vint 1), Cache.noExpiry⟩)] "k" 1 0
        = .ok (1 + 1, Cache.update [("k", ⟨Cache.stream (.vint 1), Cache.noExpiry⟩)]
            "k" (.vint (1 + 1)) 0) ∧
    Cache.assoc (Cache.update [("k", ⟨Cache.stream (.vint 1), Cache.noExpiry⟩)]
          "k" (.vint (1 + 1)) 0) "k"
        = some ⟨Cache.stream (.vint (1 + 1)), Cache.noExpiry⟩ :=
  have h := (claim4_amended [("k", ⟨Cache.stream (.vint 1), Cache.noExpiry⟩)] "k" 1 0).2.2.1
    ⟨Cache.stream (.vint 1), Cache.noExpiry⟩ 1 (by decide) (by decide)
  ⟨h.1, h.2.1⟩

/-- C8 counterexample: a live entry whose stored value is None: get_or_set
returns the cached None even though the default is not None, violating the
claim's final clause. -/
theorem claim8_counterexample :
    Cache.pyDeadB Cache.noExpiry 0 = false ∧
    (Cache.get_or_set [("k", (⟨Cache.stream .vnone, Cache.noExpiry⟩ : Cache.Entry))]
        "k" (.vstr "d") 300 0).1 = .vnone ∧
    Cache.PyVal.vstr "d" ≠ .vnone := by decide

/-- C8 amended: get_or_set returns the decoded stored value of a live row
without touching the store; on an absent or dead row it deletes any dead
row, stores the default with the requested timeout and returns it, after
which the key holds the default; the returned value is never None unless
the default is None or the live row's stored value decodes to None. -/
theorem claim8_get_or_set (st : Cache.CacheState) (k : Cache.Key) (d : Cache.PyVal)
    (t now : ℤ) :
    (∀ e, Cache.assoc st k = some e → Cache.pyDeadB e.exp now = false →
      Cache.get_or_set st k d t now = (Cache.unstream e.value, st)) ∧
    (Cache.assoc st k = none →
      Cache.get_or_set st k d t now = (d, Cache.set st k d t now)) ∧
    (∀ e, Cache.assoc st k = some e → Cache.pyDeadB e.exp now = true →
      Cache.get_or_set st k d t now = (d, Cache.set (Cache.eraseKey k st) k d t now)) ∧
    ((Cache.assoc st k = none ∨
      ∃ e, Cache.assoc st k = some e ∧ Cache.pyDeadB e.exp now = true) →
      Cache.assoc (Cache.get_or_set st k d t now).2 k
        = some ⟨Cache.stream d, Cache.exp_timestamp t now⟩) ∧
    ((Cache.get_or_set st k d t now).1 = .vnone →
      d = .vnone ∨ ∃ e, Cache.assoc st k = some e ∧ Cache.pyDeadB e.exp now = false ∧
        Cache.unstream e.value = .vnone) := by
  refine ⟨?_, ?_, ?_, ?_, ?_⟩
  · intro e he hlive
    simp [Cache.get_or_set, he, hlive]
  · intro h
    simp [Cache.get_or_set, h]
  · intro e he hdead
    simp [Cache.get_or_set, he, hdead]
  · rintro (h | ⟨e, he, hdead⟩)
    · simp [Cache.get_or_set, h, Cache.set, Cache.assoc_upsert]
    · simp [Cache.get_or_set, he, hdead, Cache.set, Cache.assoc_upsert]
  · cases hc : Cache.assoc st k with
    | none =>
      simp only [Cache.get_or_set, hc]
      exact fun h => Or.inl h
    | some e =>
      by_cases hdead : Cache.pyDeadB e.exp now
      · simp only [Cache.get_or_set, hc, if_pos hdead]
        exact fun h => Or.inl h
      · simp only [Cache.get_or_set, hc, if_neg hdead]
        intro h
        exact Or.inr ⟨e, rfl, Bool.not_eq_true _ ▸ eq_false_of_ne_true hdead, h⟩

/-- C8 witness: a concrete instance of claim8_get_or_set on a live row. -/
theorem claim8_witness :
    Cache.get_or_set [("k", ⟨Cache.stream (.vint 7), Cache.noExpiry⟩)] "k"
        (.vstr "d") 300 0
      = (Cache.unstream (Cache.stream (.vint 7)),
         [("k", ⟨Cache.stream (.vint 7), Cache.noExpiry⟩)]) :=
  (claim8_get_or_set [("k", ⟨Cache.stream (.vint 7), Cache.noExpiry⟩)] "k"
      (.vstr "d") 300 0).1
    ⟨Cache.stream (.vint 7), Cache.noExpiry⟩ (by decide) (by decide)

namespace Cache

/-- Lookup through a filter that drops the keys a boolean key test
accepts. -/
theorem assoc_filter_key_not (f : Key → Bool) (st : CacheState) (k : Key) :
    assoc (st.filter fun p => !f p.1) k = if f k = true then none else assoc st k := by
  have h := assoc_filter_key (fun k0 => !f k0) st k
  cases hf : f k <;> simp only [hf] at h ⊢ <;> simpa using h

end Cache

/-- C9: the pattern-based clears delete exactly the keys matching the LIKE
pattern, with the implicit percent wildcards the directional variants add;
the characterization holds for every row whatever its expiry field, and no
wall-clock time enters the operation, so no live/dead filtering occurs. -/
theorem claim9_clear_matching (st : Cache.CacheState) (pat : String) (k : Cache.Key) :
    Cache.assoc (Cache.clear_matching_keys st pat) k
      = (if Cache.sqlLike pat k = true then none else Cache.assoc st k) ∧
    Cache.assoc (Cache.clear_keys_starting_with st pat) k
      = (if Cache.sqlLike (pat ++ "%") k = true then none else Cache.assoc st k) ∧
    Cache.assoc (Cache.clear_keys_ending_with st pat) k
      = (if Cache.sqlLike ("%" ++ pat) k = true then none else Cache.assoc st k) ∧
    Cache.assoc (Cache.clear_keys_containing st pat) k
      = (if Cache.sqlLike ("%" ++ pat ++ "%") k = true then none else Cache.assoc st k) :=
  ⟨Cache.assoc_filter_key_not (Cache.sqlLike pat) st k,
   Cache.assoc_filter_key_not (Cache.sqlLike (pat ++ "%")) st k,
   Cache.assoc_filter_key_not (Cache.sqlLike ("%" ++ pat)) st k,
   Cache.assoc_filter_key_not (Cache.sqlLike ("%" ++ pat ++ "%")) st k⟩

/-- C10: indexed access raises exactly when get with a None default
returns None; in particular a present live entry whose stored value
decodes to None raises the key-not-found error, indistinguishable from an
absent key. -/
theorem claim10_getitem (st : Cache.CacheState) (k : Cache.Key) (now : ℤ) :
    ((Cache.getitem st k now).1 = .error () ↔ (Cache.get st k .vnone now).1 = .vnone) ∧
    (∀ e, Cache.assoc st k = some e → Cache.pyDeadB e.exp now = false →
      Cache.unstream e.value = .vnone → (Cache.getitem st k now).1 = .error ()) := by
  constructor
  · by_cases h : (Cache.get st k .vnone now).1 = .vnone <;> simp [Cache.getitem, h]
  · intro e he hlive hv
    have hget : (Cache.get st k .vnone now).1 = .vnone := by
      simp [Cache.get, he, hlive, hv]
    simp [Cache.getitem, hget]

/-- C10 witness: a live entry caching None makes indexed access raise. -/
theorem claim10_witness :
    (Cache.getitem [("k", ⟨Cache.stream .vnone, Cache.noExpiry⟩)] "k" 0).1 = .error () :=
  (claim10_getitem [("k", ⟨Cache.stream .vnone, Cache.noExpiry⟩)] "k" 0).2
    ⟨Cache.stream .vnone, Cache.noExpiry⟩ (by decide) (by decide) (by decide)

namespace Cache

/-- Filtering on membership of the empty key list keeps nothing. -/
theorem filter_inList_nil (st : CacheState) :
    (st.filter fun p => inList p.1 ([] : List Key)) = [] := by
  induction st with
  | nil => rfl
  | cons p rest ih => simp [List.filter_cons, inList, ih]

/-- Filtering out membership of the empty key list keeps everything. -/
theorem filter_not_inList_nil (st : CacheState) :
    (st.filter fun p => !inList p.1 ([] : List Key)) = st := by
  induction st with
  | nil => rfl
  | cons p rest ih => simp [List.filter_cons, inList, ih]

end Cache

namespace Cache

/-! Lemmas about the interpolated IN-list fragment: the empty fragment
denotes the empty selection, and over keys free of single quotes the
engine re-lexes the fragment back to exactly the listed keys. -/

theorem squote_ne_space : squote ≠ ' ' := by decide

theorem skipSpaces_squote (t : List Char) : skipSpaces (squote :: t) = squote :: t := by
  simp [skipSpaces, squote_ne_space]

theorem parseLit_append {k tail : List Char} (hk : squote ∉ k)
    (htail : tail.head? ≠ some squote) :
    parseLit (k ++ squote :: tail) = some (k, tail) := by
  induction k with
  | nil =>
    cases tail with
    | nil => decide
    | cons c2 cs2 =>
      have hc2 : ¬(c2 = squote) := fun h => htail (by simp [h])
      rw [List.nil_append, parseLit.eq_def]
      simp [hc2]
  | cons a as ih =>
    have ha : ¬(a = squote) := fun h => hk (List.mem_cons.mpr (Or.inl h.symm))
    have has : squote ∉ as := fun h => hk (List.mem_cons.mpr (Or.inr h))
    rw [List.cons_append, parseLit.eq_def]
    simp only [if_neg ha, ih has]
    rfl

theorem parseList_skip (fuel : Nat) {s1 s2 : List Char}
    (h : skipSpaces s1 = skipSpaces s2) :
    parseList fuel s1 = parseList fuel s2 := by
  cases fuel <;> simp [parseList, h]

theorem parseList_succ_quote (f : Nat) (body tail : List Char)
    (hk : squote ∉ body) (htail : tail.head? ≠ some squote) :
    parseList (f + 1) (squote :: (body ++ squote :: tail))
      = match skipSpaces tail with
        | [] => some [String.mk body]
        | c2 :: cs2 =>
          if c2 = ',' then (parseList f cs2).map fun l => String.mk body :: l
          else none := by
  have hlit := parseLit_append hk htail
  simp only [parseList, skipSpaces_squote, if_true]
  rw [hlit]

theorem renderIn_length : ∀ keys : List Key, keys.length ≤ (renderIn keys).length := by
  intro keys
  induction keys with
  | nil => simp [renderIn]
  | cons k rest ih =>
    cases rest with
    | nil => simp [renderIn]
    | cons k2 r2 =>
      simp only [renderIn, List.length_cons, List.length_append] at ih ⊢
      omega

theorem renderIn_cons_head (k : Key) (rest : List Key) :
    ∃ t, renderIn (k :: rest) = squote :: t := by
  cases rest <;> exact ⟨_, rfl⟩

theorem parseList_renderIn :
    ∀ (keys : List Key) (fuel : Nat), keys ≠ [] → keys.length ≤ fuel →
      (∀ k ∈ keys, squote ∉ k.data) →
      parseList fuel (renderIn keys) = some keys := by
  intro keys
  induction keys with
  | nil => intro fuel h; exact absurd rfl h
  | cons k rest ih =>
    intro fuel _ hfuel hq
    cases fuel with
    | zero => simp at hfuel
    | succ f =>
      have hqk : squote ∉ k.data := hq k (List.mem_cons_self k rest)
      cases rest with
      | nil =>
        show parseList (f + 1) (squote :: (k.data ++ [squote])) = some [k]
        rw [parseList_succ_quote f k.data [] hqk (by simp)]
        rfl
      | cons k2 r2 =>
        have harg : renderIn (k :: k2 :: r2)
            = squote :: (k.data ++ squote :: (',' :: ' ' :: renderIn (k2 :: r2))) := by
          simp [renderIn]
        have htail : (',' :: ' ' :: renderIn (k2 :: r2)).head? ≠ some squote := by
          intro h
          exact absurd (Option.some.inj h) (by decide)
        rw [harg, parseList_succ_quote f k.data _ hqk htail]
        have hsk : skipSpaces (',' :: ' ' :: renderIn (k2 :: r2))
            = ',' :: ' ' :: renderIn (k2 :: r2) := by
          simp [skipSpaces]
        rw [hsk]
        show (if (',' : Char) = ',' then
            Option.map (fun l => String.mk k.data :: l)
              (parseList f (' ' :: renderIn (k2 :: r2)))
          else none) = some (k :: k2 :: r2)
        have hskip : skipSpaces (' ' :: renderIn (k2 :: r2))
            = skipSpaces (renderIn (k2 :: r2)) := by
          simp [skipSpaces]
        have hfuel2 : (k2 :: r2).length ≤ f := by
          simp only [List.length_cons] at hfuel ⊢
          omega
        have hq2 : ∀ k0 ∈ k2 :: r2, squote ∉ k0.data := fun k0 h =>
          hq k0 (List.mem_cons_of_mem _ h)
        have hrec : parseList f (' ' :: renderIn (k2 :: r2)) = some (k2 :: r2) := by
          rw [parseList_skip f hskip]
          exact ih f (by simp) hfuel2 hq2
        rw [if_pos rfl, hrec]
        rfl

theorem parseInList_renderIn (keys : List Key) (hq : ∀ k ∈ keys, squote ∉ k.data) :
    parseInList (renderIn keys) = some keys := by
  cases keys with
  | nil => rfl
  | cons k rest =>
    obtain ⟨t, ht⟩ := renderIn_cons_head k rest
    have hlen := renderIn_length (k :: rest)
    simp only [parseInList, ht, skipSpaces_squote]
    rw [← ht]
    exact parseList_renderIn (k :: rest) ((renderIn (k :: rest)).length + 1)
      (by simp) (by omega) hq

end Cache

/-- C7: over empty input collections the fetch-style batch operations are
errorless no-ops (get_many and ttl_many return an empty mapping and leave
the relation unchanged, delete_many, update_many and touch_many leave it
unchanged; the empty IN list is legal SQLite), but add_many and set_many of
an empty mapping build an INSERT statement with an empty VALUES list, which
is a SQLite syntax error, and raise OperationalError instead of being a
no-op. -/
theorem claim7_empty_batches (st : Cache.CacheState) (t now : ℤ) :
    Cache.add_many st [] t now = .error () ∧
    Cache.set_many st [] t now = .error () ∧
    Cache.get_many st [] now = .ok ([], st) ∧
    Cache.delete_many st [] = .ok st ∧
    Cache.update_many st [] now = st ∧
    Cache.touch_many st [] t now = st ∧
    Cache.ttl_many st [] now = .ok ([], st) := by
  refine ⟨rfl, rfl, ?_, ?_, rfl, rfl, ?_⟩
  · simp [Cache.get_many, Cache.parseInList, Cache.renderIn, Cache.skipSpaces,
      Cache.filter_inList_nil, Cache.filter_not_inList_nil]
  · simp [Cache.delete_many, Cache.parseInList, Cache.renderIn, Cache.skipSpaces,
      Cache.filter_not_inList_nil]
  · simp [Cache.ttl_many, Cache.parseInList, Cache.renderIn, Cache.skipSpaces,
      Cache.filter_inList_nil, Cache.filter_not_inList_nil]

namespace Cache

/-- A fold of upserts never touches a key none of the pairs carries. -/
theorem assoc_foldl_upsert_frame (g : Key → PyVal → Entry)
    (kvs : List (Key × PyVal)) (k : Key) :
    ∀ st : CacheState, (∀ p ∈ kvs, p.1 ≠ k) →
      assoc (kvs.foldl (fun s p => upsert p.1 (g p.1 p.2) s) st) k = assoc st k := by
  induction kvs with
  | nil => intro st _; rfl
  | cons q rest ih =>
    intro st h
    rw [List.foldl_cons, ih _ fun p hp => h p (List.mem_cons_of_mem _ hp),
      assoc_upsert]
    exact if_neg fun hh => h q (List.mem_cons_self q rest) hh.symm

/-- A fold of upserts over pairwise distinct keys leaves each listed key
holding the entry built from its value. -/
theorem assoc_foldl_upsert_nodup (g : Key → PyVal → Entry)
    (kvs : List (Key × PyVal)) (k : Key) (v : PyVal) :
    ∀ st : CacheState, (kvs.map Prod.fst).Nodup → assoc kvs k = some v →
      assoc (kvs.foldl (fun s p => upsert p.1 (g p.1 p.2) s) st) k = some (g k v) := by
  induction kvs with
  | nil => intro st _ hkv; simp [assoc] at hkv
  | cons q rest ih =>
    intro st hnd hkv
    obtain ⟨k2, v2⟩ := q
    simp only [List.map_cons, List.nodup_cons] at hnd
    rw [List.foldl_cons]
    by_cases hk : k2 = k
    · subst hk
      have hv : v2 = v := by simpa [assoc] using hkv
      subst hv
      have hout : ∀ p ∈ rest, p.1 ≠ k2 := fun p hp hh =>
        hnd.1 (List.mem_map.mpr ⟨p, hp, hh⟩)
      rw [assoc_foldl_upsert_frame g rest k2 _ hout, assoc_upsert]
      simp
    · exact ih _ hnd.2 (by simpa [assoc, hk] using hkv)

/-- Deleting the keys of a list one by one is the single filtering
delete. -/
theorem foldl_eraseKey_eq_filter (keys : List Key) :
    ∀ st : CacheState,
      keys.foldl (fun s k0 => eraseKey k0 s) st
        = st.filter fun p => !inList p.1 keys := by
  induction keys with
  | nil => intro st; exact (filter_not_inList_nil st).symm
  | cons k0 ks ih =>
    intro st
    rw [List.foldl_cons, ih, eraseKey, List.filter_filter]
    refine List.filter_congr fun p hp => ?_
    by_cases h0 : p.1 = k0 <;> by_cases hks : p.1 ∈ ks <;>
      simp [inList, h0, hks]

/-- A key is among the keys of a filtered relation exactly when it heads a
row accepted by the filter. -/
theorem inList_keys_of_filter {l : CacheState} {q : Key × Entry → Bool} {k : Key} :
    inList k ((l.filter q).map Prod.fst) = true ↔
      ∃ e, (k, e) ∈ l ∧ q (k, e) = true := by
  rw [inList, decide_eq_true_eq]
  constructor
  · intro h
    rcases List.mem_map.mp h with ⟨p, hp, hpk⟩
    rcases List.mem_filter.mp hp with ⟨hmem, hq⟩
    have hpe : (k, p.2) = p := by rw [← hpk]
    exact ⟨p.2, hpe ▸ hmem, hpe ▸ hq⟩
  · rintro ⟨e, hmem, hq⟩
    exact List.mem_map.mpr ⟨(k, e), List.mem_filter.mpr ⟨hmem, hq⟩, rfl⟩

end Cache

/-- C6 counterexample: the key a','b (five characters, two of them single
quotes) is spliced verbatim into the IN list, which the engine re-lexes as
the two literals a and b: delete_many of that one listed key deletes the
row keyed a (which was not listed) and keeps the row carrying the listed
key, so delete_many does not remove every listed key and does not act as
the per-key delete. -/
theorem claim6_counterexample :
    Cache.inList "a" [String.mk ['a', Cache.squote, ',', Cache.squote, 'b']] = false ∧
    Cache.delete_many
        [(String.mk ['a', Cache.squote, ',', Cache.squote, 'b'],
          ⟨Cache.stream (.vint 1), Cache.noExpiry⟩),
         ("a", ⟨Cache.stream (.vint 2), Cache.noExpiry⟩)]
        [String.mk ['a', Cache.squote, ',', Cache.squote, 'b']]
      = .ok [(String.mk ['a', Cache.squote, ',', Cache.squote, 'b'],
          ⟨Cache.stream (.vint 1), Cache.noExpiry⟩)] := by decide

/-- C6 amended: restricted to key lists free of single quotes (so that the
spliced IN fragment re-lexes to exactly the listed keys) and to a
well-formed relation, the batch operations behave as their singular
counterparts: set_many of a nonempty mapping is the fold of the singular
set and stores every pair with the shared timeout, while of an empty
mapping it raises the malformed-SQL error; delete_many succeeds as the
fold of the singular delete, removing exactly the listed keys; get_many
succeeds, returns for each listed key exactly what the singular get
returns - its mapping holds exactly the listed present-and-live keys with
their decoded values, omitting dead or absent keys - and deletes the
listed dead rows as a side effect, leaving every other row unchanged.  A
key containing a single quote is instead spliced verbatim and re-lexed,
raising an operational error or acting on different keys. -/
theorem claim6_amended (st : Cache.CacheState) (keys : List Cache.Key)
    (kvs : List (Cache.Key × Cache.PyVal)) (t now : ℤ) (d : Cache.PyVal)
    (hWF : Cache.WF st) (hq : ∀ k ∈ keys, Cache.squote ∉ k.data) :
    (Cache.set_many st [] t now = .error ()) ∧
    (kvs ≠ [] → Cache.set_many st kvs t now
      = .ok (kvs.foldl (fun s p => Cache.set s p.1 p.2 t now) st)) ∧
    ((kvs.map Prod.fst).Nodup → ∀ k v, Cache.assoc kvs k = some v →
      Cache.assoc (kvs.foldl (fun s p => Cache.set s p.1 p.2 t now) st) k
        = some ⟨Cache.stream v, Cache.exp_timestamp t now⟩) ∧
    (Cache.delete_many st keys
      = .ok (keys.foldl (fun s k0 => Cache.delete s k0) st)) ∧
    (∀ k st2, Cache.delete_many st keys = .ok st2 →
      Cache.assoc st2 k = if Cache.inList k keys = true then none
        else Cache.assoc st k) ∧
    (∃ res st2, Cache.get_many st keys now = .ok (res, st2)) ∧
    (∀ res st2, Cache.get_many st keys now = .ok (res, st2) →
      ∀ k, Cache.inList k keys = true →
        (Cache.get st k d now).1 = (Cache.assoc res k).getD d) ∧
    (∀ res st2, Cache.get_many st keys now = .ok (res, st2) →
      ∀ k, Cache.inList k keys = false → Cache.assoc res k = none) ∧
    (∀ res st2, Cache.get_many st keys now = .ok (res, st2) →
      ∀ k e, Cache.assoc st k = some e → Cache.pyDeadB e.exp now = false →
        Cache.inList k keys = true →
        Cache.assoc res k = some (Cache.unstream e.value)) ∧
    (∀ res st2, Cache.get_many st keys now = .ok (res, st2) →
      ∀ k e, Cache.assoc st k = some e → Cache.pyDeadB e.exp now = true →
        Cache.assoc res k = none) ∧
    (∀ res st2, Cache.get_many st keys now = .ok (res, st2) →
      ∀ k, Cache.assoc st k = none → Cache.assoc res k = none) ∧
    (∀ res st2, Cache.get_many st keys now = .ok (res, st2) →
      ∀ k e, Cache.assoc st k = some e → Cache.pyDeadB e.exp now = true →
        Cache.inList k keys = true → Cache.assoc st2 k = none) ∧
    (∀ res st2, Cache.get_many st keys now = .ok (res, st2) →
      ∀ k e, Cache.assoc st k = some e → Cache.pyDeadB e.exp now = false →
        Cache.assoc st2 k = Cache.assoc st k) ∧
    (∀ res st2, Cache.get_many st keys now = .ok (res, st2) →
      ∀ k, Cache.inList k keys = false → Cache.assoc st2 k = Cache.assoc st k) ∧
    (∀ res st2, Cache.get_many st keys now = .ok (res, st2) →
      ∀ k, Cache.assoc st k = none → Cache.assoc st2 k = none) := by
  have hparse : Cache.parseInList (Cache.renderIn keys) = some keys :=
    Cache.parseInList_renderIn keys hq
  have hndF : (((st.filter fun p => Cache.inList p.1 keys).map Prod.fst)).Nodup :=
    Cache.nodup_keys_filter _ hWF
  -- every key marked for eviction is a listed key
  have hsubTD : ∀ k2 ∈ (((st.filter fun p => Cache.inList p.1 keys).filter
      fun p => Cache.pyDeadB p.2.exp now).map Prod.fst), k2 ∈ keys := by
    intro k2 hm
    rcases List.mem_map.mp hm with ⟨p, hp, hpk⟩
    rcases List.mem_filter.mp (List.mem_filter.mp hp).1 with ⟨_, hin⟩
    rw [← hpk]
    exact of_decide_eq_true hin
  -- get_many succeeds and its components are the relational expressions
  have hok : Cache.get_many st keys now
      = .ok (((st.filter fun p => Cache.inList p.1 keys).filter
                fun p => !Cache.pyDeadB p.2.exp now).map
                  (fun p => (p.1, Cache.unstream p.2.value)),
             st.filter fun p => !Cache.inList p.1
               (((st.filter fun p => Cache.inList p.1 keys).filter
                 fun p => Cache.pyDeadB p.2.exp now).map Prod.fst)) := by
    simp only [Cache.get_many, hparse]
    cases htd : (((st.filter fun p => Cache.inList p.1 keys).filter
        fun p => Cache.pyDeadB p.2.exp now).map Prod.fst) with
    | nil => rw [Cache.filter_not_inList_nil]
    | cons hd tl =>
      have hq2 : ∀ k2 ∈ hd :: tl, Cache.squote ∉ k2.data := fun k2 hm =>
        hq k2 (hsubTD k2 (htd ▸ hm))
      rw [Cache.parseInList_renderIn (hd :: tl) hq2]
  -- lookup in the result mapping
  have hR : ∀ k, Cache.assoc (((st.filter fun p => Cache.inList p.1 keys).filter
        fun p => !Cache.pyDeadB p.2.exp now).map
          (fun p => (p.1, Cache.unstream p.2.value))) k
      = (if Cache.inList k keys = true then Cache.assoc st k else none).bind
          (fun e => if Cache.pyDeadB e.exp now = false
            then some (Cache.unstream e.value) else none) := by
    intro k
    have h3 := Cache.assoc_filter_key (fun k0 => Cache.inList k0 keys) st k
    replace h3 : Cache.assoc (st.filter fun p => Cache.inList p.1 keys) k
        = if Cache.inList k keys = true then Cache.assoc st k else none := h3
    have h2 := Cache.assoc_filter_of_nodup (fun p => !Cache.pyDeadB p.2.exp now)
      (st.filter fun p => Cache.inList p.1 keys) k hndF
    replace h2 : Cache.assoc ((st.filter fun p => Cache.inList p.1 keys).filter
          fun p => !Cache.pyDeadB p.2.exp now) k
        = (Cache.assoc (st.filter fun p => Cache.inList p.1 keys) k).bind
            (fun e => if (!Cache.pyDeadB e.exp now) = true then some e else none) := h2
    have h1 := Cache.assoc_map_entry (fun (k0 : Cache.Key) (e0 : Cache.Entry) =>
      Cache.unstream e0.value)
      ((st.filter fun p => Cache.inList p.1 keys).filter
        fun p => !Cache.pyDeadB p.2.exp now) k
    replace h1 : Cache.assoc (((st.filter fun p => Cache.inList p.1 keys).filter
          fun p => !Cache.pyDeadB p.2.exp now).map
            (fun p => (p.1, Cache.unstream p.2.value))) k
        = (Cache.assoc ((st.filter fun p => Cache.inList p.1 keys).filter
            fun p => !Cache.pyDeadB p.2.exp now) k).map
              (fun e0 => Cache.unstream e0.value) := h1
    rw [h1, h2, h3]
    cases Cache.assoc st k with
    | none => cases Cache.inList k keys <;> simp
    | some e =>
      cases Cache.inList k keys <;> cases hd : Cache.pyDeadB e.exp now <;> simp [hd]
  -- membership of the eviction list
  have hTD : ∀ k, Cache.inList k
        (((st.filter fun p => Cache.inList p.1 keys).filter
          fun p => Cache.pyDeadB p.2.exp now).map Prod.fst) = true ↔
      (Cache.inList k keys = true ∧
        ∃ e, Cache.assoc st k = some e ∧ Cache.pyDeadB e.exp now = true) := by
    intro k
    rw [Cache.inList_keys_of_filter]
    constructor
    · rintro ⟨e, heF, hq2⟩
      have hm := List.mem_filter.mp heF
      exact ⟨hm.2, e, Cache.assoc_of_mem_of_nodup hWF hm.1, hq2⟩
    · rintro ⟨hin, e, hae, hdead⟩
      exact ⟨e, List.mem_filter.mpr ⟨Cache.assoc_some_mem hae, hin⟩, hdead⟩
  -- lookup in the post-eviction relation
  have hS : ∀ k, Cache.assoc (st.filter fun p => !Cache.inList p.1
        (((st.filter fun p => Cache.inList p.1 keys).filter
          fun p => Cache.pyDeadB p.2.exp now).map Prod.fst)) k
      = if Cache.inList k
          (((st.filter fun p => Cache.inList p.1 keys).filter
            fun p => Cache.pyDeadB p.2.exp now).map Prod.fst) = true
        then none else Cache.assoc st k := by
    intro k
    exact Cache.assoc_filter_key_not
      (fun k0 => Cache.inList k0
        (((st.filter fun p => Cache.inList p.1 keys).filter
          fun p => Cache.pyDeadB p.2.exp now).map Prod.fst)) st k
  have hdel : Cache.delete_many st keys
      = .ok (st.filter fun p => !Cache.inList p.1 keys) := by
    simp only [Cache.delete_many, hparse]
  refine ⟨rfl, ?_, ?_, ?_, ?_, ?_, ?_, ?_, ?_, ?_, ?_, ?_, ?_, ?_, ?_⟩
  · intro hne
    cases kvs with
    | nil => exact absurd rfl hne
    | cons q rest => rfl
  · intro hnd k v hkv
    exact Cache.assoc_foldl_upsert_nodup
      (fun k0 v0 => ⟨Cache.stream v0, Cache.exp_timestamp t now⟩) kvs k v st hnd hkv
  · rw [hdel]
    exact congrArg Except.ok (Cache.foldl_eraseKey_eq_filter keys st).symm
  · intro k st2 h
    rw [hdel] at h
    have hst2 : st2 = st.filter fun p => !Cache.inList p.1 keys :=
      (Except.ok.inj h).symm
    subst hst2
    exact Cache.assoc_filter_key_not (fun k0 => Cache.inList k0 keys) st k
  · exact ⟨_, _, hok⟩
  all_goals
    intro res st2 h
    rw [hok] at h
    have hpair := Except.ok.inj h
    have hres : res = _ := (congrArg Prod.fst hpair).symm
    have hst2 : st2 = _ := (congrArg Prod.snd hpair).symm
    subst hres
    subst hst2
  · intro k hin
    rw [hR k, hin, if_pos rfl]
    cases hae : Cache.assoc st k with
    | none => simp [Cache.get, hae]
    | some e =>
      cases hd : Cache.pyDeadB e.exp now <;> simp [Cache.get, hae, hd]
  · intro k hin
    rw [hR k, hin]
    simp
  · intro k e hae hlive hin
    rw [hR k, hin, if_pos rfl, hae]
    simp [hlive]
  · intro k e hae hdead
    rw [hR k]
    cases hin : Cache.inList k keys <;> simp [hae, hdead]
  · intro k hae
    rw [hR k]
    cases hin : Cache.inList k keys <;> simp [hae]
  · intro k e hae hdead hin
    rw [hS k, if_pos ((hTD k).mpr ⟨hin, e, hae, hdead⟩)]
  · intro k e hae hlive
    rw [hS k]
    cases hb : Cache.inList k
        (((st.filter fun p => Cache.inList p.1 keys).filter
          fun p => Cache.pyDeadB p.2.exp now).map Prod.fst) with
    | false => rw [if_neg (by simp [hb])]
    | true =>
      obtain ⟨hin, e2, hae2, hd2⟩ := (hTD k).mp hb
      rw [hae] at hae2
      obtain rfl := Option.some.inj hae2
      rw [hlive] at hd2
      exact absurd hd2 (by simp)
  · intro k hin
    rw [hS k]
    cases hb : Cache.inList k
        (((st.filter fun p => Cache.inList p.1 keys).filter
          fun p => Cache.pyDeadB p.2.exp now).map Prod.fst) with
    | false => rw [if_neg (by simp [hb])]
    | true =>
      obtain ⟨hin2, _⟩ := (hTD k).mp hb
      rw [hin] at hin2
      exact absurd hin2 (by simp)
  · intro k hae
    rw [hS k]
    cases hb : Cache.inList k
        (((st.filter fun p => Cache.inList p.1 keys).filter
          fun p => Cache.pyDeadB p.2.exp now).map Prod.fst) with
    | false => rw [if_neg (by simp [hb]), hae]
    | true => rfl

/-- C6 witness: a two-row store with one live and one dead row and
quote-free keys, exercised through the batch operations. -/
theorem claim6_witness :
    Cache.set_many
        [("a", ⟨Cache.stream (.vint 1), Cache.noExpiry⟩),
         ("b", ⟨Cache.stream (.vint 2), 1000000⟩)] [] 300 5000000 = .error () ∧
    Cache.assoc ([("x", Cache.PyVal.vint 7)].foldl
        (fun s p => Cache.set s p.1 p.2 300 5000000)
        [("a", ⟨Cache.stream (.vint 1), Cache.noExpiry⟩),
         ("b", ⟨Cache.stream (.vint 2), 1000000⟩)]) "x"
      = some ⟨Cache.stream (.vint 7), Cache.exp_timestamp 300 5000000⟩ ∧
    Cache.delete_many
        [("a", ⟨Cache.stream (.vint 1), Cache.noExpiry⟩),
         ("b", ⟨Cache.stream (.vint 2), 1000000⟩)] ["a", "b", "c"]
      = .ok (["a", "b", "c"].foldl (fun s k0 => Cache.delete s k0)
          [("a", ⟨Cache.stream (.vint 1), Cache.noExpiry⟩),
           ("b", ⟨Cache.stream (.vint 2), 1000000⟩)]) ∧
    Cache.assoc ([] : Cache.CacheState) "a"
      = (if Cache.inList "a" ["a", "b", "c"] = true then none
         else Cache.assoc
           [("a", ⟨Cache.stream (.vint 1), Cache.noExpiry⟩),
            ("b", ⟨Cache.stream (.vint 2), 1000000⟩)] "a") ∧
    (Cache.get [("a", ⟨Cache.stream (.vint 1), Cache.noExpiry⟩),
        ("b", ⟨Cache.stream (.vint 2), 1000000⟩)] "a" .vnone 5000000).1
      = (Cache.assoc [("a", Cache.PyVal.vint 1)] "a").getD .vnone ∧
    Cache.assoc [("a", Cache.PyVal.vint 1)] "b" = none ∧
    Cache.assoc ([("a", ⟨Cache.stream (.vint 1), Cache.noExpiry⟩)] : Cache.CacheState)
      "b" = none := by
  have h := claim6_amended
    [("a", ⟨Cache.stream (.vint 1), Cache.noExpiry⟩),
     ("b", ⟨Cache.stream (.vint 2), 1000000⟩)]
    ["a", "b", "c"] [("x", .vint 7)] 300 5000000 .vnone
    (by unfold Cache.WF; decide) (by decide)
  have h0 : Cache.get_many
      [("a", ⟨Cache.stream (.vint 1), Cache.noExpiry⟩),
       ("b", ⟨Cache.stream (.vint 2), 1000000⟩)] ["a", "b", "c"] 5000000
      = .ok ([("a", Cache.PyVal.vint 1)],
          [("a", ⟨Cache.stream (.vint 1), Cache.noExpiry⟩)]) := by decide
  exact ⟨h.1,
    h.2.2.1 (by decide) "x" (.vint 7) (by decide),
    h.2.2.2.1,
    h.2.2.2.2.1 "a" [] (by decide),
    h.2.2.2.2.2.2.1 _ _ h0 "a" (by decide),
    h.2.2.2.2.2.2.2.2.2.1 _ _ h0 "b"
      (⟨Cache.stream (.vint 2), 1000000⟩ : Cache.Entry) (by decide) (by decide),
    h.2.2.2.2.2.2.2.2.2.2.2.1 _ _ h0 "b"
      (⟨Cache.stream (.vint 2), 1000000⟩ : Cache.Entry)
      (by decide) (by decide) (by decide)⟩
